import Mathlib

/-!
Verification of the varustatistik formatter (`varustatistik_formatter.py`).

This file shallowly embeds the core pipeline of the repository:
`get_swedish_timezone_offset`, `get_variable_id`, the row-extraction /
aggregation loop of `process_excel_file`, `format_output`, and the
error-handling shape of `main`.  Spreadsheet cells are modelled as an
inductive type (blank / text / numeric); numeric cell values are modelled
as rationals (the Python source uses floats; every property proved here is
about the structure of the computation, not float rounding).  Each
definition carries a comment pointing to the source lines it embeds.
-/

namespace Varustatistik

/-- A spreadsheet cell as seen through `pandas.read_excel(..., header=None)`:
a blank/absent cell (pandas `NaN`), a text cell, or a numeric cell. -/
inductive Cell where
  | blank : Cell
  | str : String → Cell
  | num : ℚ → Cell
deriving DecidableEq, Repr

/-- One sheet row; pandas pads every row of a sheet to the sheet's width
with `NaN`, so absent trailing cells read as `blank`. -/
abbrev Row := List Cell

/-- `row[i]`: cell at column `i`, blank when absent. -/
def cellAt (row : Row) (i : Nat) : Cell := row.getD i Cell.blank

/-- `pd.notna` on one cell. -/
def cellNotna : Cell → Bool
  | Cell.blank => false
  | _ => true

/-- `pd.isna` on one cell. -/
def cellIsna : Cell → Bool
  | Cell.blank => true
  | _ => false

/-! ### Character/string utilities -/

/-- ASCII decimal digit test (embeds `\d` of the source's regexes on the
inputs in scope). -/
def isDigitChar (c : Char) : Bool := decide ('0' ≤ c) && decide (c ≤ '9')

/-- Python `str.lower` restricted to the Latin-1 range (ASCII letters plus
`À`–`Þ` except `×` map down by 32 code points; this covers every character
the source's category labels use, in particular `É` → `é`). -/
def pyLowerChar (c : Char) : Char :=
  if decide ('A' ≤ c) && decide (c ≤ 'Z') then Char.ofNat (c.toNat + 32)
  else if decide ('À' ≤ c) && decide (c ≤ 'Þ') && decide (c ≠ '×') then Char.ofNat (c.toNat + 32)
  else c

/-- Python `str.lower` on a whole string. -/
def pyLower (s : String) : String := String.mk (s.data.map pyLowerChar)

/-- Substring occurrence on character lists (Python's `needle in hay`). -/
def subMem (needle : List Char) : List Char → Bool
  | [] => needle.isEmpty
  | c :: rest => needle.isPrefixOf (c :: rest) || subMem needle rest

/-- Python's `needle in hay` on strings. -/
def strContains (hay needle : String) : Bool := subMem needle.data hay.data

/-- Split a character list at every occurrence of `sep` (the semantics of
Python's `str.split(sep)` for a single-character separator, and of
`str.join` read backwards). -/
def splitOnChar (sep : Char) : List Char → List (List Char)
  | [] => [[]]
  | c :: rest =>
    if c = sep then [] :: splitOnChar sep rest
    else
      match splitOnChar sep rest with
      | [] => [[c]]
      | h :: t => (c :: h) :: t

/-- Digits-to-number accumulator. -/
def digitsToNat (cs : List Char) : Nat := cs.foldl (fun n c => n * 10 + (c.toNat - 48)) 0

/-- Python `int(s)` restricted to plain non-empty all-digit strings — the
only shape the pipeline ever passes (the date parts come out of
`\d`-groups of the row regex). Anything else errors. -/
def pyIntDigits (cs : List Char) : Option Nat :=
  if cs ≠ [] ∧ cs.all isDigitChar then some (digitsToNat cs) else none

/-! ### Category classifier — `get_variable_id`, source lines 48–64 -/

/-- `get_variable_id(category)`: lower-case the label, then first match in
priority order: `café`/`sallad` → `kallmat`; `food` with
`kitchen`/`printer` → `varmmat`; bare `food` → `varmmat`; otherwise the
empty string (unknown category). -/
def get_variable_id (category : String) : String :=
  let cl := pyLower category
  if strContains cl "café" || strContains cl "sallad" then "kallmat"
  else if strContains cl "food" && (strContains cl "kitchen" || strContains cl "printer") then
    "varmmat"
  else if strContains cl "food" then "varmmat"
  else ""

/-! ### Timezone resolver — `get_swedish_timezone_offset`, source lines 23–45 -/

/-- Month offsets of Sakamoto's day-of-week formula (index by month 1–12). -/
def sakamotoT : Nat → Nat
  | 1 => 0 | 2 => 3 | 3 => 2 | 4 => 5 | 5 => 0 | 6 => 3
  | 7 => 5 | 8 => 1 | 9 => 4 | 10 => 6 | 11 => 2 | 12 => 4
  | _ => 0

/-- `datetime.weekday()`: Monday = 0 … Sunday = 6, via Sakamoto's formula
(which yields Sunday = 0; the `+ 6` shift converts to Python's convention). -/
def dayOfWeekPy (y m d : Nat) : Nat :=
  let y' := if m < 3 then y - 1 else y
  (y' + y' / 4 + y' / 400 + sakamotoT m + d + 6 - y' / 100) % 7

/-- The source's `while weekday != 6: day -= 1` loop, with explicit fuel
(31 suffices: a Sunday occurs among any 7 consecutive days). -/
def lastSundayFrom (y m : Nat) : Nat → Nat → Nat
  | 0, d => d
  | fuel + 1, d => if dayOfWeekPy y m d = 6 then d else lastSundayFrom y m fuel (d - 1)

/-- Day-of-month of the last Sunday of a 31-day month, found by stepping
back from day 31 (source lines 33–40; both March and October have 31 days). -/
def lastSunday (y m : Nat) : Nat := lastSundayFrom y m 31 31

/-- `datetime` comparison restricted to (year, month, day): strict
lexicographic order. -/
def dateLt (a b : Nat × Nat × Nat) : Prop :=
  a.1 < b.1 ∨ (a.1 = b.1 ∧ (a.2.1 < b.2.1 ∨ (a.2.1 = b.2.1 ∧ a.2.2 < b.2.2)))

/-- `datetime` comparison restricted to (year, month, day): non-strict
lexicographic order. -/
def dateLe (a b : Nat × Nat × Nat) : Prop :=
  a.1 < b.1 ∨ (a.1 = b.1 ∧ (a.2.1 < b.2.1 ∨ (a.2.1 = b.2.1 ∧ a.2.2 ≤ b.2.2)))

instance : DecidableRel dateLt := fun a b => by unfold dateLt; infer_instance
instance : DecidableRel dateLe := fun a b => by unfold dateLe; infer_instance

/-- Source line 43: `if march_last <= date < october_last` on the already
validated (year, month, day) triple. -/
def offset_core (y m d : Nat) : String :=
  if dateLe (y, 3, lastSunday y 3) (y, m, d) ∧ dateLt (y, m, d) (y, 10, lastSunday y 10) then
    "+02:00"
  else "+01:00"

/-- Gregorian leap-year rule (as in Python's `datetime`). -/
def isLeapYear (y : Nat) : Bool := y % 4 == 0 && (y % 100 != 0 || y % 400 == 0)

/-- Days in a month (as validated by Python's `datetime`). -/
def daysInMonth (y m : Nat) : Nat :=
  if m = 2 then (if isLeapYear y then 29 else 28)
  else if m = 4 ∨ m = 6 ∨ m = 9 ∨ m = 11 then 30
  else 31

/-- The validity check `datetime(year, month, day)` performs
(`MINYEAR = 1`, `MAXYEAR = 9999`). -/
def isValidDate (y m d : Nat) : Bool :=
  decide (1 ≤ y) && decide (y ≤ 9999) && decide (1 ≤ m) && decide (m ≤ 12)
    && decide (1 ≤ d) && decide (d ≤ daysInMonth y m)

/-- `get_swedish_timezone_offset(date_str)`, lines 23–45: split the string
on `-`, convert the parts with `int` (the callers only ever pass
regex-validated all-digit parts, which `String.toNat?` handles
identically), build the `datetime` (which validates the triple and raises
on an invalid date), and compare against the last Sundays of March and
October.  Failures of `datetime` surface as `Except.error`, mirroring the
uncaught `ValueError`. -/
def get_swedish_timezone_offset (date_str : String) : Except String String :=
  match splitOnChar '-' date_str.data with
  | [ys, ms, ds] =>
    match pyIntDigits ys, pyIntDigits ms, pyIntDigits ds with
    | some y, some m, some d =>
      if isValidDate y m d then Except.ok (offset_core y m d)
      else Except.error "day is out of range for month"
    | _, _, _ => Except.error "invalid literal for int() with base 10"
  | _ => Except.error "cannot unpack date string"

/-! ### Row label regex — `re.match(r'Totalt (\d{4}-\d{2}-\d{2}) (.+?) Kl: (\d{2})', row[0])`,
source line 101.  `re.match` anchors at the start of the string only; the
pattern leaves the tail unconstrained. -/

/-- Consume the `\d{4}-\d{2}-\d{2}` date group. -/
def takeDate : List Char → Option (List Char × List Char)
  | a :: b :: c :: d :: s1 :: e :: f :: s2 :: g :: h :: rest =>
    if isDigitChar a && isDigitChar b && isDigitChar c && isDigitChar d
        && (s1 == '-') && isDigitChar e && isDigitChar f && (s2 == '-')
        && isDigitChar g && isDigitChar h then
      some ([a, b, c, d, s1, e, f, s2, g, h], rest)
    else none
  | _ => none

/-- Try the literal ` Kl: ` followed by the `\d{2}` hour group at this
position; on success return the two hour digits. -/
def tryKl : List Char → Option (List Char)
  | ' ' :: 'K' :: 'l' :: ':' :: ' ' :: a :: b :: _ =>
    if isDigitChar a && isDigitChar b then some [a, b] else none
  | _ => none

/-- The non-greedy `(.+?)` category group: grow the category one character
at a time (never across a newline, which `.` does not match) and after each
character try ` Kl: \d\d` — the first position where it fits wins, exactly
the backtracking order of the engine (every earlier element of the pattern
is fixed-width, so there are no other choice points). -/
def scanCat (acc : List Char) : List Char → Option (List Char × List Char)
  | [] => none
  | c :: rest =>
    if c = '\n' then none
    else
      match tryKl rest with
      | some hour => some (acc ++ [c], hour)
      | none => scanCat (acc ++ [c]) rest

/-- The whole anchored match: on success, the three capture groups
(date, category, hour). -/
def matchTotal (s : String) : Option (String × String × String) :=
  match s.data with
  | 'T' :: 'o' :: 't' :: 'a' :: 'l' :: 't' :: ' ' :: rest =>
    match takeDate rest with
    | some (dateCs, rest2) =>
      match rest2 with
      | ' ' :: rest3 =>
        match scanCat [] rest3 with
        | some (catCs, hourCs) => some (String.mk dateCs, String.mk catCs, String.mk hourCs)
        | none => none
      | _ => none
    | none => none
  | _ => none

/-! ### Numeric coercion — `float(antal)`, source line 127 -/

/-- Whitespace stripped by Python's `float(str)`. -/
def isSpaceChar (c : Char) : Bool :=
  c == ' ' || c == '\t' || c == '\n' || c == '\r' || c == '\x0c' || c == '\x0b'

/-- Split a leading digit run. -/
def splitDigits (cs : List Char) : List Char × List Char :=
  (cs.takeWhile isDigitChar, cs.dropWhile isDigitChar)

/-- Exponent digits: non-empty, nothing after. -/
def parseExpDigits (cs : List Char) : Option Int :=
  let p := splitDigits cs
  if p.1 ≠ [] ∧ p.2 = [] then some (Int.ofNat (digitsToNat p.1)) else none

/-- Optionally signed exponent. -/
def parseSignedExp : List Char → Option Int
  | '+' :: rest => parseExpDigits rest
  | '-' :: rest => (parseExpDigits rest).map Int.neg
  | rest => parseExpDigits rest

/-- The optional `e`/`E` exponent part (must end the string). -/
def parseExpPart : List Char → Option Int
  | [] => some 0
  | 'e' :: rest => parseSignedExp rest
  | 'E' :: rest => parseSignedExp rest
  | _ => none

/-- Mantissa: `digits`, `digits.`, `digits.digits`, or `.digits`; returns
its value and the unconsumed tail. -/
def parseMantissa (cs : List Char) : Option (ℚ × List Char) :=
  let p := splitDigits cs
  match p.2 with
  | '.' :: rest2 =>
    let q := splitDigits rest2
    if p.1 = [] ∧ q.1 = [] then none
    else some ((digitsToNat p.1 : ℚ) + (digitsToNat q.1 : ℚ) / ((10 : ℚ) ^ q.1.length), q.2)
  | _ => if p.1 = [] then none else some ((digitsToNat p.1 : ℚ), p.2)

/-- Python `float(s)` on a string: strip whitespace, optional sign, decimal
mantissa, optional exponent.  (The `inf`/`nan`/underscore spellings Python
also accepts are outside the model; no claim involves them.)  `none` is the
`ValueError` case. -/
def floatParse (s : String) : Option ℚ :=
  let cs := ((s.data.dropWhile isSpaceChar).reverse.dropWhile isSpaceChar).reverse
  let sgn : ℚ × List Char :=
    match cs with
    | '+' :: r => (1, r)
    | '-' :: r => (-1, r)
    | r => (1, r)
  match parseMantissa sgn.2 with
  | none => none
  | some mr =>
    match parseExpPart mr.2 with
    | none => none
    | some e => some (sgn.1 * mr.1 * (10 : ℚ) ^ e)

/-- `float(antal)` where `antal` is a cell value: numbers pass through,
strings are parsed (failure is the fatal `ValueError` of line 127).  The
blank case is unreachable in the pipeline — line 107 already replaced a
blank cell by the number `0`. -/
def pyFloat : Cell → Except String ℚ
  | Cell.num q => Except.ok q
  | Cell.str s =>
    match floatParse s with
    | some q => Except.ok q
    | none => Except.error ("could not convert string to float: " ++ s)
  | Cell.blank => Except.ok 0

/-! ### Row extraction — `process_excel_file` loop body, source lines 97–127 -/

/-- One extracted tuple: date, formatted time, timezone offset, variable
id, and coerced quantity — the data entering one aggregation update. -/
structure Tup where
  date : String
  time : String
  tz : String
  varId : String
  qty : ℚ
deriving DecidableEq, Repr

/-- The aggregation key of line 124: `(date_str, time_formatted, timezone,
variable_id)`. -/
abbrev AggKey := String × String × String × String

/-- Key of a tuple. -/
def tupKey (t : Tup) : AggKey := (t.date, t.time, t.tz, t.varId)

/-- Lines 99–111: the gate (`pd.notna(row[0]) and isinstance(row[0], str)
and row[0].startswith('Totalt')`), the regex match, the quantity read
(`row[4]` with blank replaced by `0`), and the `antal == '' or
pd.isna(antal)` skip.  `none` is a silently skipped row. -/
def extract_row (row : Row) : Option (String × String × String × Cell) :=
  match cellAt row 0 with
  | Cell.str s =>
    if "Totalt".data.isPrefixOf s.data then
      match matchTotal s with
      | some (d, c, h) =>
        let antal := if cellNotna (cellAt row 4) then cellAt row 4 else Cell.num 0
        if antal = Cell.str "" ∨ cellIsna antal = true then none
        else some (d, c, h, antal)
      | none => none
    else none
  | _ => none

/-- Lines 113–127 for one row: classify (discard on empty variable id),
resolve the timezone (which can raise on an invalid embedded date), format
the time as `HH:00:00`, coerce the quantity (which can raise).  `ok none`
is a skipped row; `error` aborts the whole run. -/
def processRow (row : Row) : Except String (Option Tup) :=
  match extract_row row with
  | none => Except.ok none
  | some (d, c, h, antal) =>
    if get_variable_id c = "" then Except.ok none
    else
      match get_swedish_timezone_offset d with
      | Except.error e => Except.error e
      | Except.ok tz =>
        match pyFloat antal with
        | Except.error e => Except.error e
        | Except.ok q => Except.ok (some ⟨d, h ++ ":00:00", tz, get_variable_id c, q⟩)

/-- The per-sheet row loop (line 97), in row order; the first error aborts. -/
def extractRows : List Row → Except String (List Tup)
  | [] => Except.ok []
  | r :: rs =>
    match processRow r with
    | Except.error e => Except.error e
    | Except.ok none => extractRows rs
    | Except.ok (some t) =>
      match extractRows rs with
      | Except.error e => Except.error e
      | Except.ok ts => Except.ok (t :: ts)

/-! ### Sheet filter and orchestration — source lines 83–94 -/

/-- `re.match(r'^\d{4}-\d{2}$', sheet_name)` as a Boolean: Python's `$`
accepts the end of the string or a single trailing newline. -/
def reFullmatchYM (s : String) : Bool :=
  match s.data with
  | [a, b, c, d, e, f, g] => isDigitChar a && isDigitChar b && isDigitChar c && isDigitChar d
      && (e == '-') && isDigitChar f && isDigitChar g
  | [a, b, c, d, e, f, g, '\n'] => isDigitChar a && isDigitChar b && isDigitChar c && isDigitChar d
      && (e == '-') && isDigitChar f && isDigitChar g
  | _ => false

/-- Lines 85–89: the two `continue` tests — skip when the name fails the
`YYYY-MM` pattern (unless it is `Blad1`, which the first test lets
through), then skip `Blad1` unconditionally. -/
def sheet_skipped (name : String) : Bool :=
  if reFullmatchYM name = false ∧ name ≠ "Blad1" then true
  else if name = "Blad1" then true
  else false

/-- A workbook: sheet names with their row grids, in workbook order. -/
abbrev Workbook := List (String × List Row)

/-- The sheet loop of line 83: concatenate the tuples of every retained
sheet, in sheet order; the first error aborts. -/
def processSheets : Workbook → Except String (List Tup)
  | [] => Except.ok []
  | (name, rows) :: rest =>
    if sheet_skipped name then processSheets rest
    else
      match extractRows rows with
      | Except.error e => Except.error e
      | Except.ok ts =>
        match processSheets rest with
        | Except.error e => Except.error e
        | Except.ok ts2 => Except.ok (ts ++ ts2)

/-! ### Aggregation — `defaultdict` upsert of lines 72–78 and 124–127 -/

/-- One `aggregated_data[key]['value'] += float(antal)` step on an
insertion-ordered association list (Python dicts preserve insertion
order); a fresh key starts from the `defaultdict` initial value `0.0`. -/
def upsert (m : List (AggKey × ℚ)) (k : AggKey) (q : ℚ) : List (AggKey × ℚ) :=
  match m with
  | [] => [(k, q)]
  | kv :: rest => if kv.1 = k then (kv.1, kv.2 + q) :: rest else kv :: upsert rest k q

/-- Fold the tuples through the aggregation dict, in extraction order. -/
def aggAux (m : List (AggKey × ℚ)) : List Tup → List (AggKey × ℚ)
  | [] => m
  | t :: ts => aggAux (upsert m (tupKey t) t.qty) ts

/-- The fully aggregated dict after the sheet loop. -/
def aggregate (ts : List Tup) : List (AggKey × ℚ) := aggAux [] ts

/-! ### Output records, sort and formatting — source lines 129–162 -/

/-- One output record (lines 131–141): the four key fields, the summed
value, and the three constant fields. -/
structure Rec where
  date : String
  time : String
  tz : String
  value : ℚ
  varId : String
  configId : String
  unitKey : String
  sectionKey : String
deriving DecidableEq, Repr

/-- Lines 129–141: materialize the dict into records, keeping dict
(= first-insertion) order; `configId`, `unitKey`, `sectionKey` are the
constants of the `defaultdict` initializer. -/
def recordsOf (m : List (AggKey × ℚ)) : List Rec :=
  m.map (fun kv => ⟨kv.1.1, kv.1.2.1, kv.1.2.2.1, kv.2, kv.1.2.2.2, "", "produktion", "köket"⟩)

/-- The key of the record, for aggregation-identity statements. -/
def recKey (r : Rec) : AggKey := (r.date, r.time, r.tz, r.varId)

/-- The sort relation of line 144: ascending lexicographic on the key
tuple `(x['date'], x['time'], x['externalForecastVariableId'])`.  Python
compares strings by code point; `List Char` comparison under Mathlib's
order is exactly that. -/
def recLe (a b : Rec) : Prop :=
  a.date.data < b.date.data
    ∨ (a.date.data = b.date.data
        ∧ (a.time.data < b.time.data
            ∨ (a.time.data = b.time.data ∧ a.varId.data ≤ b.varId.data)))

instance : DecidableRel recLe := fun a b => by unfold recLe; infer_instance

instance : IsTotal Rec recLe where
  total a b := by
    unfold recLe
    rcases lt_trichotomy a.date.data b.date.data with h | h | h
    · exact Or.inl (Or.inl h)
    · rcases lt_trichotomy a.time.data b.time.data with h2 | h2 | h2
      · exact Or.inl (Or.inr ⟨h, Or.inl h2⟩)
      · rcases le_total a.varId.data b.varId.data with h3 | h3
        · exact Or.inl (Or.inr ⟨h, Or.inr ⟨h2, h3⟩⟩)
        · exact Or.inr (Or.inr ⟨h.symm, Or.inr ⟨h2.symm, h3⟩⟩)
      · exact Or.inr (Or.inr ⟨h.symm, Or.inl h2⟩)
    · exact Or.inr (Or.inl h)

instance : IsTrans Rec recLe where
  trans a b c hab hbc := by
    unfold recLe at hab hbc ⊢
    rcases hab with h1 | ⟨e1, h1⟩
    · rcases hbc with h2 | ⟨e2, h2⟩
      · exact Or.inl (lt_trans h1 h2)
      · exact Or.inl (e2 ▸ h1)
    · rcases hbc with h2 | ⟨e2, h2⟩
      · exact Or.inl (e1 ▸ h2)
      · refine Or.inr ⟨e1.trans e2, ?_⟩
        rcases h1 with t1 | ⟨f1, t1⟩
        · rcases h2 with t2 | ⟨f2, t2⟩
          · exact Or.inl (lt_trans t1 t2)
          · exact Or.inl (f2 ▸ t1)
        · rcases h2 with t2 | ⟨f2, t2⟩
          · exact Or.inl (f1 ▸ t2)
          · exact Or.inr ⟨f1.trans f2, le_trans t1 t2⟩

/-- `results.sort(key=...)` (line 144): a stable sort under `recLe`;
`insertionSort` is stable, so it produces exactly Python's result. -/
def sortRecords (rs : List Rec) : List Rec := List.insertionSort recLe rs

/-- `process_excel_file` (lines 67–146) over an in-memory workbook:
extract + aggregate, then materialize and sort. -/
def process_excel_file (wb : Workbook) : Except String (List Rec) :=
  match processSheets wb with
  | Except.error e => Except.error e
  | Except.ok ts => Except.ok (sortRecords (recordsOf (aggregate ts)))

/-- Render a value the way `f"{value}"` renders a Python float whose
decimal expansion terminates: integer part, a dot, and the fractional
digits (at least one, so integers end in `.0`). -/
def fracDigits (num den : Nat) : Nat → List Char
  | 0 => []
  | fuel + 1 =>
    if num = 0 then []
    else Char.ofNat (48 + num * 10 / den) :: fracDigits (num * 10 % den) den fuel

/-- Default rendering of a float value (see `fracDigits`). -/
def pyFloatStr (q : ℚ) : String :=
  let sign := if q.num < 0 then "-" else ""
  let ip := q.num.natAbs / q.den
  let ds := fracDigits (q.num.natAbs % q.den) q.den 17
  sign ++ toString ip ++ "." ++ String.mk (if ds = [] then ['0'] else ds)

/-- The fixed header line of lines 154–156. -/
def headerLine : String :=
  "date *\ttime *\ttimezone *\tvalue *\texternalForecastVariableId *\texternalForecastConfigurationId\tUnit integration key\tSection integration key"

/-- The f-string of line 159: the eight record fields joined by tabs. -/
def recLine (r : Rec) : String :=
  r.date ++ "\t" ++ r.time ++ "\t" ++ r.tz ++ "\t" ++ pyFloatStr r.value ++ "\t"
    ++ r.varId ++ "\t" ++ r.configId ++ "\t" ++ r.unitKey ++ "\t" ++ r.sectionKey

/-- Python's `sep.join(lines)`. -/
def joinSep (sep : String) : List String → String
  | [] => ""
  | [x] => x
  | x :: xs => x ++ sep ++ joinSep sep xs

/-- `format_output` (lines 149–162): the header line, then one line per
record, joined by newlines. -/
def format_output (results : List Rec) : String :=
  joinSep "\n" (headerLine :: results.map recLine)

/-- The observable outcome of `main` (lines 165–212) on an already loaded
workbook: on any error from the core, exit status 1 and no output file;
on success, exit status 0 and the formatted text written out. -/
def main_run (wb : Workbook) : Nat × Option String :=
  match process_excel_file wb with
  | Except.error _ => (1, none)
  | Except.ok rs => (0, some (format_output rs))

/-! ## Lemmas about the aggregation dict -/

/-- First-match lookup in the association list (Python dict lookup). -/
def lookupVal (m : List (AggKey × ℚ)) (k : AggKey) : Option ℚ :=
  match m with
  | [] => none
  | kv :: rest => if kv.1 = k then some kv.2 else lookupVal rest k

/-- Total quantity carried by the tuples of a given key. -/
def sumQ (ts : List Tup) (k : AggKey) : ℚ :=
  ((ts.filter fun t => decide (tupKey t = k)).map Tup.qty).sum

theorem lookupVal_upsert_self (m : List (AggKey × ℚ)) (k : AggKey) (q : ℚ) :
    lookupVal (upsert m k q) k = some ((lookupVal m k).getD 0 + q) := by
  induction m with
  | nil => simp [upsert, lookupVal]
  | cons kv rest ih =>
    by_cases h : kv.1 = k
    · simp [upsert, lookupVal, h]
    · simp [upsert, lookupVal, h, ih]

theorem lookupVal_upsert_ne (m : List (AggKey × ℚ)) (k k' : AggKey) (q : ℚ) (h : k' ≠ k) :
    lookupVal (upsert m k q) k' = lookupVal m k' := by
  have hne : ¬ k = k' := fun e => h e.symm
  induction m with
  | nil => simp [upsert, lookupVal, hne]
  | cons kv rest ih =>
    by_cases hk : kv.1 = k
    · simp [upsert, lookupVal, hk, hne]
    · simp only [upsert, if_neg hk, lookupVal]
      by_cases hk' : kv.1 = k'
      · simp [hk']
      · simp [hk', ih]

theorem mem_fst_upsert {k k' : AggKey} {q : ℚ} :
    ∀ {m : List (AggKey × ℚ)},
      k' ∈ (upsert m k q).map Prod.fst → k' ∈ m.map Prod.fst ∨ k' = k := by
  intro m
  induction m with
  | nil =>
    intro h
    simp only [upsert, List.map_cons, List.map_nil, List.mem_singleton] at h
    exact Or.inr h
  | cons kv rest ih =>
    intro h
    by_cases hk : kv.1 = k
    · simp only [upsert, if_pos hk, List.map_cons] at h
      exact Or.inl h
    · simp only [upsert, if_neg hk, List.map_cons, List.mem_cons] at h
      rcases h with h | h
      · exact Or.inl (List.mem_cons.mpr (Or.inl h))
      · rcases ih h with h2 | h2
        · exact Or.inl (List.mem_cons.mpr (Or.inr h2))
        · exact Or.inr h2

theorem nodup_fst_upsert (k : AggKey) (q : ℚ) :
    ∀ {m : List (AggKey × ℚ)},
      (m.map Prod.fst).Nodup → ((upsert m k q).map Prod.fst).Nodup := by
  intro m
  induction m with
  | nil => intro _; simp [upsert]
  | cons kv rest ih =>
    intro h
    by_cases hk : kv.1 = k
    · simpa only [upsert, if_pos hk, List.map_cons] using h
    · simp only [upsert, if_neg hk, List.map_cons]
      simp only [List.map_cons, List.nodup_cons] at h
      exact List.nodup_cons.mpr
        ⟨fun hmem => (mem_fst_upsert hmem).elim h.1 hk, ih h.2⟩

theorem nodup_fst_aggAux (ts : List Tup) :
    ∀ m : List (AggKey × ℚ), (m.map Prod.fst).Nodup → ((aggAux m ts).map Prod.fst).Nodup := by
  induction ts with
  | nil => intro m h; simpa [aggAux] using h
  | cons t ts ih =>
    intro m h
    exact ih _ (nodup_fst_upsert _ _ h)

theorem mem_fst_aggAux (ts : List Tup) :
    ∀ m : List (AggKey × ℚ), ∀ k, k ∈ (aggAux m ts).map Prod.fst →
      k ∈ m.map Prod.fst ∨ k ∈ ts.map tupKey := by
  induction ts with
  | nil => intro m k h; exact Or.inl (by simpa [aggAux] using h)
  | cons t ts ih =>
    intro m k h
    rcases ih _ k h with h2 | h2
    · rcases mem_fst_upsert h2 with h3 | h3
      · exact Or.inl h3
      · exact Or.inr (by rw [List.map_cons]; exact List.mem_cons.mpr (Or.inl h3))
    · exact Or.inr (by rw [List.map_cons]; exact List.mem_cons.mpr (Or.inr h2))

theorem sumQ_nil (k : AggKey) : sumQ [] k = 0 := rfl

theorem sumQ_cons (t : Tup) (ts : List Tup) (k : AggKey) :
    sumQ (t :: ts) k = (if tupKey t = k then t.qty else 0) + sumQ ts k := by
  by_cases h : tupKey t = k <;> simp [sumQ, List.filter_cons, h]

theorem sumQ_eq_zero {ts : List Tup} {k : AggKey}
    (h : (ts.any fun t => decide (tupKey t = k)) = false) : sumQ ts k = 0 := by
  induction ts with
  | nil => rfl
  | cons t ts ih =>
    simp only [List.any_cons, Bool.or_eq_false_iff] at h
    rw [sumQ_cons, ih h.2]
    have : ¬ tupKey t = k := by simpa using h.1
    simp [this]

theorem lookupVal_aggAux (ts : List Tup) :
    ∀ m : List (AggKey × ℚ), ∀ k,
      lookupVal (aggAux m ts) k =
        if (ts.any fun t => decide (tupKey t = k)) = true then
          some ((lookupVal m k).getD 0 + sumQ ts k)
        else lookupVal m k := by
  induction ts with
  | nil => intro m k; simp [aggAux]
  | cons t ts ih =>
    intro m k
    by_cases ht : tupKey t = k
    · rw [show aggAux m (t :: ts) = aggAux (upsert m (tupKey t) t.qty) ts from rfl, ih]
      by_cases hany : (ts.any fun t => decide (tupKey t = k)) = true
      · rw [if_pos hany]
        have h1 : (((t :: ts).any fun t => decide (tupKey t = k)) = true) := by simp [ht]
        rw [if_pos h1, ht, lookupVal_upsert_self, sumQ_cons, if_pos ht]
        simp [add_assoc]
      · rw [if_neg hany, ht, lookupVal_upsert_self]
        have h1 : (((t :: ts).any fun t => decide (tupKey t = k)) = true) := by simp [ht]
        rw [if_pos h1, sumQ_cons, if_pos ht,
          sumQ_eq_zero (Bool.not_eq_true _ ▸ hany)]
        simp [add_assoc]
    · rw [show aggAux m (t :: ts) = aggAux (upsert m (tupKey t) t.qty) ts from rfl, ih]
      have hne : ∀ k', k' = tupKey t → k ≠ k' := fun k' e => by
        rw [e]; exact fun e2 => ht e2.symm
      by_cases hany : (ts.any fun t => decide (tupKey t = k)) = true
      · have h1 : (((t :: ts).any fun t => decide (tupKey t = k)) = true) := by
          simp [List.any_cons, hany]
        rw [if_pos hany, if_pos h1, lookupVal_upsert_ne _ _ _ _ (hne _ rfl),
          sumQ_cons, if_neg ht, zero_add]
      · have h1 : (((t :: ts).any fun t => decide (tupKey t = k)) = false) := by
          simp [List.any_cons, Bool.not_eq_true _ ▸ hany, ht]
        rw [if_neg hany, h1]
        simp [lookupVal_upsert_ne _ _ _ _ (hne _ rfl)]

theorem mem_iff_lookupVal {m : List (AggKey × ℚ)} (h : (m.map Prod.fst).Nodup)
    (k : AggKey) (v : ℚ) : (k, v) ∈ m ↔ lookupVal m k = some v := by
  induction m with
  | nil => simp [lookupVal]
  | cons kv rest ih =>
    simp only [List.map_cons, List.nodup_cons] at h
    constructor
    · intro hm
      rcases List.mem_cons.mp hm with he | hm2
      · rw [← he]; simp [lookupVal]
      · have hne : ¬ kv.1 = k := by
          intro e
          exact h.1 (e ▸ (List.mem_map_of_mem Prod.fst hm2))
        simp only [lookupVal, if_neg hne]
        exact (ih h.2 |>.mp hm2)
    · intro hl
      simp only [lookupVal] at hl
      by_cases he : kv.1 = k
      · rw [if_pos he] at hl
        have : kv = (k, v) := by
          cases kv; simp at he hl; simp [he, hl]
        simp [this]
      · rw [if_neg he] at hl
        exact List.mem_cons.mpr (Or.inr ((ih h.2).mpr hl))

/-! ## Lemmas about extraction: emitted tuples always carry a non-empty
variable id, and a fatal row error aborts the whole run -/

theorem processRow_some_varId {r : Row} {t : Tup}
    (h : processRow r = Except.ok (some t)) : t.varId ≠ "" := by
  unfold processRow at h
  split at h
  · exact absurd h (by simp)
  · split at h
    · exact absurd h (by simp)
    · split at h
      · exact absurd h (by simp)
      · split at h
        · exact absurd h (by simp)
        · simp only [Except.ok.injEq, Option.some.injEq] at h
          rw [← h]
          assumption

theorem processRow_eq {row : Row} {d c hh : String} {antal : Cell}
    (hext : extract_row row = some (d, c, hh, antal)) :
    processRow row =
      (if get_variable_id c = "" then Except.ok none
        else
          match get_swedish_timezone_offset d with
          | Except.error e => Except.error e
          | Except.ok tz =>
            match pyFloat antal with
            | Except.error e => Except.error e
            | Except.ok q =>
              Except.ok (some (Tup.mk d (hh ++ ":00:00") tz (get_variable_id c) q))) := by
  unfold processRow
  rw [hext]

theorem extractRows_mem_varId {rows : List Row} :
    ∀ {ts : List Tup}, extractRows rows = Except.ok ts →
      ∀ t ∈ ts, t.varId ≠ "" := by
  induction rows with
  | nil =>
    intro ts h t ht
    simp only [extractRows, Except.ok.injEq] at h
    rw [← h] at ht
    exact absurd ht (List.not_mem_nil t)
  | cons r rs ih =>
    intro ts h t ht
    unfold extractRows at h
    cases hr : processRow r with
    | error e => rw [hr] at h; exact absurd h (by simp)
    | ok o =>
      rw [hr] at h
      cases o with
      | none => exact ih h t ht
      | some t0 =>
        cases hrest : extractRows rs with
        | error e => rw [hrest] at h; exact absurd h (by simp)
        | ok ts0 =>
          rw [hrest] at h
          simp only [Except.ok.injEq] at h
          rw [← h] at ht
          rcases List.mem_cons.mp ht with he | hm
          · exact he ▸ processRow_some_varId hr
          · exact ih hrest t hm

theorem processSheets_mem_varId {wb : Workbook} :
    ∀ {ts : List Tup}, processSheets wb = Except.ok ts →
      ∀ t ∈ ts, t.varId ≠ "" := by
  induction wb with
  | nil =>
    intro ts h t ht
    simp only [processSheets, Except.ok.injEq] at h
    rw [← h] at ht
    exact absurd ht (List.not_mem_nil t)
  | cons sheet rest ih =>
    intro ts h t ht
    obtain ⟨name, rows⟩ := sheet
    unfold processSheets at h
    by_cases hsk : sheet_skipped name = true
    · rw [if_pos hsk] at h
      exact ih h t ht
    · rw [if_neg hsk] at h
      cases hr : extractRows rows with
      | error e => rw [hr] at h; exact absurd h (by simp)
      | ok ts1 =>
        rw [hr] at h
        cases hrest : processSheets rest with
        | error e => rw [hrest] at h; exact absurd h (by simp)
        | ok ts2 =>
          rw [hrest] at h
          simp only [Except.ok.injEq] at h
          rw [← h] at ht
          rcases List.mem_append.mp ht with hm | hm
          · exact extractRows_mem_varId hr t hm
          · exact ih hrest t hm

theorem extractRows_error {rows : List Row} {r : Row} (hr : r ∈ rows) {e : String}
    (he : processRow r = Except.error e) : ∃ e2, extractRows rows = Except.error e2 := by
  induction rows with
  | nil => exact absurd hr (List.not_mem_nil r)
  | cons a l ih =>
    rcases List.mem_cons.mp hr with h1 | h1
    · exact ⟨e, by rw [h1] at he; simp [extractRows, he]⟩
    · cases ha : processRow a with
      | error e3 => exact ⟨e3, by simp [extractRows, ha]⟩
      | ok o =>
        obtain ⟨e2, h2⟩ := ih h1
        cases o with
        | none => exact ⟨e2, by simp [extractRows, ha, h2]⟩
        | some t => exact ⟨e2, by simp [extractRows, ha, h2]⟩

theorem processSheets_error {wb : Workbook} {name : String} {rows : List Row}
    (hm : (name, rows) ∈ wb) (hs : sheet_skipped name = false)
    (herr : ∃ e, extractRows rows = Except.error e) :
    ∃ e, processSheets wb = Except.error e := by
  induction wb with
  | nil => exact absurd hm (List.not_mem_nil _)
  | cons sheet rest ih =>
    obtain ⟨n2, rws2⟩ := sheet
    rcases List.mem_cons.mp hm with h1 | h1
    · obtain ⟨e, he⟩ := herr
      have hn : n2 = name := (congrArg Prod.fst h1).symm
      have hrw : rws2 = rows := (congrArg Prod.snd h1).symm
      refine ⟨e, ?_⟩
      unfold processSheets
      rw [hn, hrw, hs]
      simp [he]
    · obtain ⟨e2, h2⟩ := ih h1
      by_cases hsk : sheet_skipped n2 = true
      · exact ⟨e2, by unfold processSheets; rw [hsk]; simpa using h2⟩
      · rw [Bool.not_eq_true] at hsk
        cases hr : extractRows rws2 with
        | error e3 => exact ⟨e3, by unfold processSheets; rw [hsk]; simp [hr]⟩
        | ok ts1 => exact ⟨e2, by unfold processSheets; rw [hsk]; simp [hr, h2]⟩

theorem process_excel_file_error {wb : Workbook}
    (h : ∃ e, processSheets wb = Except.error e) :
    (∃ e, process_excel_file wb = Except.error e) ∧ main_run wb = (1, none) := by
  obtain ⟨e, he⟩ := h
  have hp : process_excel_file wb = Except.error e := by
    unfold process_excel_file
    rw [he]
  exact ⟨⟨e, hp⟩, by unfold main_run; rw [hp]⟩

/-! ## Lemmas about materialization and sorting -/

theorem recordsOf_map_recKey (m : List (AggKey × ℚ)) :
    (recordsOf m).map recKey = m.map Prod.fst := by
  induction m with
  | nil => rfl
  | cons kv rest ih =>
    obtain ⟨⟨a, b, c, dd⟩, v⟩ := kv
    simp only [recordsOf, List.map_cons] at ih ⊢
    rw [← ih]
    rfl

theorem mem_recordsOf {m : List (AggKey × ℚ)} {r : Rec} (h : r ∈ recordsOf m) :
    ∃ kv ∈ m, r = ⟨kv.1.1, kv.1.2.1, kv.1.2.2.1, kv.2, kv.1.2.2.2, "", "produktion", "köket"⟩ := by
  obtain ⟨kv, hkv, he⟩ := List.mem_map.mp h
  exact ⟨kv, hkv, he.symm⟩

theorem sortRecords_perm (rs : List Rec) : (sortRecords rs).Perm rs :=
  List.perm_insertionSort recLe rs

theorem sortRecords_sorted (rs : List Rec) : (sortRecords rs).Sorted recLe :=
  List.sorted_insertionSort recLe rs

theorem mem_sortRecords {rs : List Rec} {r : Rec} : r ∈ sortRecords rs ↔ r ∈ rs :=
  (sortRecords_perm rs).mem_iff

/-! ## Lemmas about the textual output: splitting the rendered text back
on separators recovers the lines and the fields -/

theorem splitOnChar_of_not_mem {sep : Char} :
    ∀ {xs : List Char}, sep ∉ xs → splitOnChar sep xs = [xs] := by
  intro xs
  induction xs with
  | nil => intro _; rfl
  | cons c rest ih =>
    intro h
    have hc : ¬ c = sep := fun e => h (List.mem_cons.mpr (Or.inl e.symm))
    have hr : sep ∉ rest := fun hm => h (List.mem_cons.mpr (Or.inr hm))
    simp [splitOnChar, hc, ih hr]

theorem splitOnChar_append {sep : Char} :
    ∀ {xs ys : List Char}, sep ∉ xs →
      splitOnChar sep (xs ++ sep :: ys) = xs :: splitOnChar sep ys := by
  intro xs ys
  induction xs with
  | nil => intro _; simp [splitOnChar]
  | cons c rest ih =>
    intro h
    have hc : ¬ c = sep := fun e => h (List.mem_cons.mpr (Or.inl e.symm))
    have hr : sep ∉ rest := fun hm => h (List.mem_cons.mpr (Or.inr hm))
    simp only [List.cons_append, splitOnChar, if_neg hc]
    rw [show rest.append (sep :: ys) = rest ++ sep :: ys from rfl, ih hr]

theorem notMem_append {α : Type} {a : α} {xs ys : List α} (h1 : a ∉ xs) (h2 : a ∉ ys) :
    a ∉ xs ++ ys := fun hm => (List.mem_append.mp hm).elim h1 h2

theorem notMem_cons {α : Type} {a c : α} {xs : List α} (h1 : a ≠ c) (h2 : a ∉ xs) :
    a ∉ c :: xs := fun hm => (List.mem_cons.mp hm).elim h1 h2

/-- The rendered field never contains a tab. -/
def noTab (s : String) : Prop := '\t' ∉ s.data

/-- The rendered field never contains a newline. -/
def noNL (s : String) : Prop := '\n' ∉ s.data

instance (s : String) : Decidable (noTab s) := by unfold noTab; infer_instance
instance (s : String) : Decidable (noNL s) := by unfold noNL; infer_instance

/-- All eight rendered fields of one record are separator-free (true of
every record the pipeline produces; the formatter claims are stated under
this hypothesis because `format_output` itself accepts any record list). -/
def cleanRec (r : Rec) : Prop :=
  (noTab r.date ∧ noNL r.date) ∧ (noTab r.time ∧ noNL r.time) ∧ (noTab r.tz ∧ noNL r.tz)
    ∧ (noTab (pyFloatStr r.value) ∧ noNL (pyFloatStr r.value)) ∧ (noTab r.varId ∧ noNL r.varId)
    ∧ (noTab r.configId ∧ noNL r.configId) ∧ (noTab r.unitKey ∧ noNL r.unitKey)
    ∧ (noTab r.sectionKey ∧ noNL r.sectionKey)

instance (r : Rec) : Decidable (cleanRec r) := by unfold cleanRec; infer_instance

theorem recLine_data (r : Rec) : (recLine r).data =
    r.date.data ++ '\t' :: (r.time.data ++ '\t' :: (r.tz.data ++ '\t' ::
      ((pyFloatStr r.value).data ++ '\t' :: (r.varId.data ++ '\t' ::
        (r.configId.data ++ '\t' :: (r.unitKey.data ++ '\t' :: r.sectionKey.data)))))) := by
  have ht : ("\t" : String).data = ['\t'] := rfl
  simp [recLine, String.data_append, ht, List.append_assoc]

theorem recLine_fields (r : Rec) (h : cleanRec r) :
    splitOnChar '\t' (recLine r).data =
      [r.date.data, r.time.data, r.tz.data, (pyFloatStr r.value).data, r.varId.data,
        r.configId.data, r.unitKey.data, r.sectionKey.data] := by
  obtain ⟨⟨hd, _⟩, ⟨ht2, _⟩, ⟨hz, _⟩, ⟨hvl, _⟩, ⟨hv, _⟩, ⟨hc, _⟩, ⟨hu, _⟩, ⟨hs, _⟩⟩ := h
  rw [recLine_data, splitOnChar_append hd, splitOnChar_append ht2, splitOnChar_append hz,
    splitOnChar_append hvl, splitOnChar_append hv, splitOnChar_append hc,
    splitOnChar_append hu, splitOnChar_of_not_mem hs]

theorem recLine_noNL {r : Rec} (h : cleanRec r) : '\n' ∉ (recLine r).data := by
  obtain ⟨⟨_, hd⟩, ⟨_, ht2⟩, ⟨_, hz⟩, ⟨_, hvl⟩, ⟨_, hv⟩, ⟨_, hc⟩, ⟨_, hu⟩, ⟨_, hs⟩⟩ := h
  rw [recLine_data]
  exact notMem_append hd (notMem_cons (by decide) (notMem_append ht2 (notMem_cons (by decide)
    (notMem_append hz (notMem_cons (by decide) (notMem_append hvl (notMem_cons (by decide)
      (notMem_append hv (notMem_cons (by decide) (notMem_append hc (notMem_cons (by decide)
        (notMem_append hu (notMem_cons (by decide) hs)))))))))))))

theorem splitOnChar_joinSep_nl :
    ∀ (xs : List String) (x : String), '\n' ∉ x.data → (∀ l ∈ xs, '\n' ∉ l.data) →
      splitOnChar '\n' (joinSep "\n" (x :: xs)).data = (x :: xs).map String.data := by
  intro xs
  induction xs with
  | nil => intro x hx _; simp [joinSep, splitOnChar_of_not_mem hx]
  | cons y rest ih =>
    intro x hx hall
    have hdata : (joinSep "\n" (x :: y :: rest)).data
        = x.data ++ '\n' :: (joinSep "\n" (y :: rest)).data := by
      show (x ++ "\n" ++ joinSep "\n" (y :: rest)).data = _
      have hn : ("\n" : String).data = ['\n'] := rfl
      simp [String.data_append, hn]
    rw [hdata, splitOnChar_append hx,
      ih y (hall y (List.mem_cons.mpr (Or.inl rfl)))
        (fun l hl => hall l (List.mem_cons.mpr (Or.inr hl)))]
    simp

theorem format_output_lines (rs : List Rec) (h : ∀ r ∈ rs, cleanRec r) :
    splitOnChar '\n' (format_output rs).data
      = headerLine.data :: rs.map (fun r => (recLine r).data) := by
  have he : format_output rs = joinSep "\n" (headerLine :: rs.map recLine) := rfl
  rw [he, splitOnChar_joinSep_nl (rs.map recLine) headerLine (by decide) ?_]
  · simp [List.map_map]
  · intro l hl
    obtain ⟨r, hr, hre⟩ := List.mem_map.mp hl
    rw [← hre]
    exact recLine_noNL (h r hr)

theorem mem_fst_of_lookupVal {m : List (AggKey × ℚ)} {k : AggKey} {v : ℚ}
    (h : lookupVal m k = some v) : k ∈ m.map Prod.fst := by
  induction m with
  | nil => simp [lookupVal] at h
  | cons kv rest ih =>
    by_cases he : kv.1 = k
    · rw [List.map_cons]; exact List.mem_cons.mpr (Or.inl he.symm)
    · simp only [lookupVal, if_neg he] at h
      rw [List.map_cons]; exact List.mem_cons.mpr (Or.inr (ih h))

/-- Records of a successful run all come from the aggregation dict, hence
carry the constant trailing fields and a variable id drawn from a tuple. -/
theorem process_ok_mem {wb : Workbook} {recs : List Rec} {r : Rec}
    (h : process_excel_file wb = Except.ok recs) (hr : r ∈ recs) :
    ∃ ts, processSheets wb = Except.ok ts
      ∧ ∃ kv ∈ aggregate ts,
          r = ⟨kv.1.1, kv.1.2.1, kv.1.2.2.1, kv.2, kv.1.2.2.2, "", "produktion", "köket"⟩ := by
  unfold process_excel_file at h
  cases hs : processSheets wb with
  | error e => rw [hs] at h; exact absurd h (by simp)
  | ok ts =>
    rw [hs] at h
    simp only [Except.ok.injEq] at h
    rw [← h] at hr
    exact ⟨ts, rfl, mem_recordsOf (mem_sortRecords.mp hr)⟩

/-! ## The claims -/

/-- C2: for every valid calendar date, the timezone resolver returns
`+02:00` exactly when last-Sunday-of-March ≤ date < last-Sunday-of-October
of that date's year (both Sundays computed by the step-back loop
`lastSunday`), and `+01:00` otherwise; in 2024 those Sundays are March 31
and October 27, and the four sample dates resolve as the spec states. -/
theorem C2_timezone_resolver :
    (∀ y m d : Nat, isValidDate y m d = true →
      (offset_core y m d = "+02:00"
          ↔ dateLe (y, 3, lastSunday y 3) (y, m, d)
            ∧ dateLt (y, m, d) (y, 10, lastSunday y 10))
        ∧ (offset_core y m d = "+02:00" ∨ offset_core y m d = "+01:00"))
    ∧ lastSunday 2024 3 = 31 ∧ lastSunday 2024 10 = 27
    ∧ get_swedish_timezone_offset "2024-03-31" = Except.ok "+02:00"
    ∧ get_swedish_timezone_offset "2024-10-26" = Except.ok "+02:00"
    ∧ get_swedish_timezone_offset "2024-10-27" = Except.ok "+01:00"
    ∧ get_swedish_timezone_offset "2024-01-15" = Except.ok "+01:00" := by
  refine ⟨?_, rfl, rfl, rfl, rfl, rfl, rfl⟩
  intro y m d _
  constructor
  · unfold offset_core
    by_cases hc : dateLe (y, 3, lastSunday y 3) (y, m, d)
        ∧ dateLt (y, m, d) (y, 10, lastSunday y 10)
    · rw [if_pos hc]
      exact ⟨fun _ => hc, fun _ => rfl⟩
    · rw [if_neg hc]
      exact ⟨fun he => absurd he (by decide), fun hcc => absurd hcc hc⟩
  · unfold offset_core
    split_ifs
    · exact Or.inl rfl
    · exact Or.inr rfl

/-- Witness for C2 at the concrete valid date 2024-07-01. -/
theorem C2_timezone_resolver_witness :
    isValidDate 2024 7 1 = true
    ∧ (offset_core 2024 7 1 = "+02:00"
        ↔ dateLe (2024, 3, lastSunday 2024 3) (2024, 7, 1)
          ∧ dateLt (2024, 7, 1) (2024, 10, lastSunday 2024 10)) :=
  ⟨rfl, (C2_timezone_resolver.1 2024 7 1 rfl).1⟩

/-- C3: the classifier applies case-insensitive substring rules in fixed
priority order — `café`/`sallad` win (giving `kallmat`, even when `food`
is also present), otherwise `food` gives `varmmat`, otherwise the label is
unrecognized (empty id) and no record of a successful run ever carries an
empty variable id. -/
theorem C3_classifier :
    (∀ s : String,
      (strContains (pyLower s) "café" = true ∨ strContains (pyLower s) "sallad" = true) →
      get_variable_id s = "kallmat")
    ∧ (∀ s : String, strContains (pyLower s) "café" = false →
        strContains (pyLower s) "sallad" = false →
        strContains (pyLower s) "food" = true → get_variable_id s = "varmmat")
    ∧ (∀ s : String, strContains (pyLower s) "café" = false →
        strContains (pyLower s) "sallad" = false →
        strContains (pyLower s) "food" = false → get_variable_id s = "")
    ∧ get_variable_id "Café Kallt" = "kallmat"
    ∧ get_variable_id "SALLAD BAR" = "kallmat"
    ∧ get_variable_id "Food Kitchen Printer" = "varmmat"
    ∧ get_variable_id "Food" = "varmmat"
    ∧ get_variable_id "Drinks" = ""
    ∧ get_variable_id "Café with Food" = "kallmat"
    ∧ (∀ wb recs, process_excel_file wb = Except.ok recs → ∀ r ∈ recs, r.varId ≠ "") := by
  refine ⟨?_, ?_, ?_, rfl, rfl, rfl, rfl, rfl, rfl, ?_⟩
  · intro s hs
    unfold get_variable_id
    rcases hs with h | h <;> simp [h]
  · intro s h1 h2 h3
    unfold get_variable_id
    by_cases hk : (strContains (pyLower s) "kitchen" || strContains (pyLower s) "printer") = true
    · simp [h1, h2, h3, hk]
    · simp only [Bool.or_eq_true, not_or, Bool.not_eq_true] at hk
      simp [h1, h2, h3, hk.1, hk.2]
  · intro s h1 h2 h3
    unfold get_variable_id
    simp [h1, h2, h3]
  · intro wb recs h r hr
    obtain ⟨ts, hs, kv, hkv, he⟩ := process_ok_mem h hr
    have hk : kv.1 ∈ (aggregate ts).map Prod.fst := List.mem_map_of_mem Prod.fst hkv
    rcases mem_fst_aggAux ts [] kv.1 hk with h0 | h0
    · exact absurd h0 (by simp)
    · obtain ⟨t, ht, hkeq⟩ := List.mem_map.mp h0
      have hv := processSheets_mem_varId hs t ht
      have hvar : t.varId = kv.1.2.2.2 := by rw [← hkeq]; rfl
      rw [he]
      exact hvar ▸ hv

/-- Witness for C3 at the concrete label of the spec. -/
theorem C3_classifier_witness :
    strContains (pyLower "Café Kallt") "café" = true
    ∧ get_variable_id "Café Kallt" = "kallmat" :=
  ⟨rfl, C3_classifier.1 "Café Kallt" (Or.inl rfl)⟩

/-- C4: a sheet is processed exactly when its name matches the
`^\d{4}-\d{2}$` pattern and is not the fixed template name `Blad1`; on a
workbook with sheets `2024-05`, `Blad1`, `Notes`, only `2024-05` is
processed, whatever the contents of the excluded sheets. -/
theorem C4_sheet_filter :
    (∀ name : String,
      sheet_skipped name = false ↔ (reFullmatchYM name = true ∧ name ≠ "Blad1"))
    ∧ (∀ rows1 rows2 rows3 : List Row,
        process_excel_file [("2024-05", rows1), ("Blad1", rows2), ("Notes", rows3)]
          = process_excel_file [("2024-05", rows1)])
    ∧ sheet_skipped "Blad1" = true ∧ sheet_skipped "Notes" = true
    ∧ sheet_skipped "2024-05" = false := by
  refine ⟨?_, ?_, rfl, rfl, rfl⟩
  · intro name
    cases hm : reFullmatchYM name <;> by_cases hb : name = "Blad1" <;>
      simp [sheet_skipped, hm, hb]
  · intro rows1 rows2 rows3
    have s1 : sheet_skipped "2024-05" = false := rfl
    have s2 : sheet_skipped "Blad1" = true := rfl
    have s3 : sheet_skipped "Notes" = true := rfl
    unfold process_excel_file
    have h : processSheets [("2024-05", rows1), ("Blad1", rows2), ("Notes", rows3)]
        = processSheets [("2024-05", rows1)] := by
      cases h1 : extractRows rows1 with
      | error e => simp [processSheets, s1, s2, s3, h1]
      | ok ts => simp [processSheets, s1, s2, s3, h1]
    rw [h]

/-- C5: the row extractor silently skips rows whose first cell is blank,
numeric, not `Totalt`-prefixed, or failing the full label pattern; the
spec's sample label with column-4 value 7 yields exactly the one tuple
(2024-05-10, "Café Kallt", "14", 7.0). -/
theorem C5_row_extractor :
    (∀ row : Row, cellAt row 0 = Cell.blank → processRow row = Except.ok none)
    ∧ (∀ row : Row, ∀ q : ℚ, cellAt row 0 = Cell.num q → processRow row = Except.ok none)
    ∧ (∀ row : Row, ∀ s : String, cellAt row 0 = Cell.str s →
        "Totalt".data.isPrefixOf s.data = false → processRow row = Except.ok none)
    ∧ (∀ row : Row, ∀ s : String, cellAt row 0 = Cell.str s →
        matchTotal s = none → processRow row = Except.ok none)
    ∧ matchTotal "Totalt 2024-05-10 Café Kallt Kl: 14" = some ("2024-05-10", "Café Kallt", "14")
    ∧ extract_row [Cell.str "Totalt 2024-05-10 Café Kallt Kl: 14",
        Cell.blank, Cell.blank, Cell.blank, Cell.num 7]
        = some ("2024-05-10", "Café Kallt", "14", Cell.num 7)
    ∧ pyFloat (Cell.num 7) = Except.ok 7
    ∧ extractRows [[Cell.str "Totalt 2024-05-10 Café Kallt Kl: 14",
        Cell.blank, Cell.blank, Cell.blank, Cell.num 7]]
        = Except.ok [⟨"2024-05-10", "14:00:00", "+02:00", "kallmat", 7⟩] := by
  refine ⟨?_, ?_, ?_, ?_, rfl, rfl, rfl, rfl⟩
  · intro row h
    simp [processRow, extract_row, h]
  · intro row q h
    simp [processRow, extract_row, h]
  · intro row s h h2
    simp [processRow, extract_row, h, h2]
  · intro row s h h2
    by_cases hp : "Totalt".data.isPrefixOf s.data <;>
      simp [processRow, extract_row, h, h2, hp]

/-- Witness for C5 at a concrete skipped row. -/
theorem C5_row_extractor_witness :
    cellAt [Cell.blank, Cell.num 7] 0 = Cell.blank
    ∧ processRow [Cell.blank, Cell.num 7] = Except.ok none :=
  ⟨rfl, C5_row_extractor.1 [Cell.blank, Cell.num 7] rfl⟩

/-- C10: the label pattern is anchored at the start only — any trailing
text after the two hour digits is accepted (for every trailing string),
and the hour captured is the first two digits, e.g. `Kl: 145` matches with
hour 14. -/
theorem C10_trailing_unanchored :
    (∀ t : String, matchTotal ("Totalt 2024-05-10 Café Kallt Kl: 14" ++ t)
        = some ("2024-05-10", "Café Kallt", "14"))
    ∧ matchTotal "Totalt 2024-05-10 Café Kallt Kl: 145"
        = some ("2024-05-10", "Café Kallt", "14")
    ∧ matchTotal "Totalt 2024-05-10 Café Kallt Kl: 14 and more 99"
        = some ("2024-05-10", "Café Kallt", "14") :=
  ⟨fun _ => rfl, rfl, rfl⟩

/-- C6: tuples sharing an aggregation key are combined into exactly one
record whose value is the arithmetic sum of their quantities, every tuple
reaches a record, and keys are unique in the final record set; 7 and 3 at
the same key give 10. -/
theorem C6_aggregation :
    (∀ ts : List Tup, ((aggregate ts).map Prod.fst).Nodup)
    ∧ (∀ ts : List Tup, ∀ k v, (k, v) ∈ aggregate ts → v = sumQ ts k)
    ∧ (∀ ts : List Tup, ∀ t ∈ ts, tupKey t ∈ (aggregate ts).map Prod.fst)
    ∧ (∀ wb recs, process_excel_file wb = Except.ok recs → (recs.map recKey).Nodup)
    ∧ aggregate [⟨"2024-05-10", "14:00:00", "+02:00", "kallmat", 7⟩,
        ⟨"2024-05-10", "14:00:00", "+02:00", "kallmat", 3⟩]
        = [(("2024-05-10", "14:00:00", "+02:00", "kallmat"), 10)] := by
  refine ⟨?_, ?_, ?_, ?_, by norm_num [aggregate, aggAux, upsert, tupKey]⟩
  · intro ts
    exact nodup_fst_aggAux ts [] (by simp)
  · intro ts k v hm
    have hl : lookupVal (aggregate ts) k = some v :=
      (mem_iff_lookupVal (nodup_fst_aggAux ts [] (by simp)) k v).mp hm
    rw [show aggregate ts = aggAux [] ts from rfl, lookupVal_aggAux ts [] k] at hl
    by_cases hany : (ts.any fun t => decide (tupKey t = k)) = true
    · rw [if_pos hany] at hl
      simp only [lookupVal, Option.getD, Option.some.injEq] at hl
      rw [← hl, zero_add]
    · rw [if_neg hany] at hl
      exact absurd hl (by simp [lookupVal])
  · intro ts t ht
    have hany : (ts.any fun x => decide (tupKey x = tupKey t)) = true :=
      List.any_eq_true.mpr ⟨t, ht, by simp⟩
    have hl := lookupVal_aggAux ts [] (tupKey t)
    rw [if_pos hany] at hl
    exact mem_fst_of_lookupVal hl
  · intro wb recs h
    unfold process_excel_file at h
    cases hs : processSheets wb with
    | error e => rw [hs] at h; exact absurd h (by simp)
    | ok ts =>
      rw [hs] at h
      simp only [Except.ok.injEq] at h
      rw [← h]
      have hperm := (sortRecords_perm (recordsOf (aggregate ts))).map recKey
      rw [recordsOf_map_recKey] at hperm
      exact hperm.nodup_iff.mpr (nodup_fst_aggAux ts [] (by simp))

/-- Witness for C6: the summed value 10 at the shared key really is the
sum of the two quantities 7 and 3. -/
theorem C6_aggregation_witness :
    ((("2024-05-10", "14:00:00", "+02:00", "kallmat"), (10 : ℚ))
        ∈ aggregate [⟨"2024-05-10", "14:00:00", "+02:00", "kallmat", 7⟩,
            ⟨"2024-05-10", "14:00:00", "+02:00", "kallmat", 3⟩])
    ∧ (10 : ℚ) = sumQ [⟨"2024-05-10", "14:00:00", "+02:00", "kallmat", 7⟩,
        ⟨"2024-05-10", "14:00:00", "+02:00", "kallmat", 3⟩]
        ("2024-05-10", "14:00:00", "+02:00", "kallmat") :=
  ⟨by rw [C6_aggregation.2.2.2.2]; exact List.mem_singleton.mpr rfl,
    C6_aggregation.2.1 [⟨"2024-05-10", "14:00:00", "+02:00", "kallmat", 7⟩,
        ⟨"2024-05-10", "14:00:00", "+02:00", "kallmat", 3⟩]
      ("2024-05-10", "14:00:00", "+02:00", "kallmat") 10
      (by rw [C6_aggregation.2.2.2.2]; exact List.mem_singleton.mpr rfl)⟩

/-- C7: the final record sequence of every successful run is sorted
ascending lexicographically by (date, time, variableId); in particular a
`kallmat` record sorts before a `varmmat` record with the same date and
time. -/
theorem C7_sorted_output :
    (∀ wb recs, process_excel_file wb = Except.ok recs → recs.Sorted recLe)
    ∧ sortRecords
        [⟨"2024-05-10", "14:00:00", "+02:00", 3, "varmmat", "", "produktion", "köket"⟩,
          ⟨"2024-05-10", "14:00:00", "+02:00", 7, "kallmat", "", "produktion", "köket"⟩]
        = [⟨"2024-05-10", "14:00:00", "+02:00", 7, "kallmat", "", "produktion", "köket"⟩,
            ⟨"2024-05-10", "14:00:00", "+02:00", 3, "varmmat", "", "produktion", "köket"⟩] := by
  constructor
  · intro wb recs h
    unfold process_excel_file at h
    cases hs : processSheets wb with
    | error e => rw [hs] at h; exact absurd h (by simp)
    | ok ts =>
      rw [hs] at h
      simp only [Except.ok.injEq] at h
      rw [← h]
      exact sortRecords_sorted _
  · decide

/-- Witness for C7: the records of a concrete two-row run are sorted. -/
theorem C7_sorted_output_witness :
    List.Sorted recLe
      [⟨"2024-05-10", "14:00:00", "+02:00", 7, "kallmat", "", "produktion", "köket"⟩,
        ⟨"2024-05-10", "14:00:00", "+02:00", 3, "varmmat", "", "produktion", "köket"⟩] :=
  C7_sorted_output.1
    [("2024-05", [[Cell.str "Totalt 2024-05-10 Food Kl: 14",
        Cell.blank, Cell.blank, Cell.blank, Cell.num 3],
      [Cell.str "Totalt 2024-05-10 Café Kallt Kl: 14",
        Cell.blank, Cell.blank, Cell.blank, Cell.num 7]])]
    [⟨"2024-05-10", "14:00:00", "+02:00", 7, "kallmat", "", "produktion", "köket"⟩,
      ⟨"2024-05-10", "14:00:00", "+02:00", 3, "varmmat", "", "produktion", "köket"⟩]
    (by rfl)

/-- C1: contrary to the spec, a fully matching row whose column-4 quantity
is blank (or a present zero) is NOT dropped: the `antal == '' or
pd.isna(antal)` test of line 110 never fires for them (a blank was already
replaced by the number `0` on line 107, and `0` is neither `''` nor NA),
so the run emits a zero-value record — the code contradicts its own
comment `Skip if antal is empty or 0`.  Only an empty-string cell is
dropped. -/
theorem C1_zero_blank_rows_are_emitted :
    process_excel_file [("2024-05",
        [[Cell.str "Totalt 2024-05-10 Café Kallt Kl: 14",
          Cell.blank, Cell.blank, Cell.blank, Cell.blank]])]
      = Except.ok [⟨"2024-05-10", "14:00:00", "+02:00", 0, "kallmat", "", "produktion", "köket"⟩]
    ∧ process_excel_file [("2024-05",
        [[Cell.str "Totalt 2024-05-10 Café Kallt Kl: 14",
          Cell.blank, Cell.blank, Cell.blank, Cell.num 0]])]
      = Except.ok [⟨"2024-05-10", "14:00:00", "+02:00", 0, "kallmat", "", "produktion", "köket"⟩]
    ∧ process_excel_file [("2024-05",
        [[Cell.str "Totalt 2024-05-10 Café Kallt Kl: 14",
          Cell.blank, Cell.blank, Cell.blank, Cell.str ""]])]
      = Except.ok []
    ∧ format_output [⟨"2024-05-10", "14:00:00", "+02:00", 0, "kallmat", "", "produktion", "köket"⟩]
      = headerLine ++ "\n" ++ "2024-05-10\t14:00:00\t+02:00\t0.0\tkallmat\t\tproduktion\tköket" :=
  ⟨rfl, rfl, rfl, rfl⟩

/-- C8 counterexample: this row passes the `Totalt` gate and the full
pattern and its column-4 value `abc` cannot be coerced to a number, yet
the run does NOT fail — the category `Drinks` is unrecognized, so line 127
(`float(antal)`) is never reached, the run exits 0 and writes the
header-only output. -/
theorem C8_counterexample :
    (matchTotal "Totalt 2024-05-10 Drinks Kl: 14").isSome = true
    ∧ floatParse "abc" = none
    ∧ process_excel_file [("2024-05",
        [[Cell.str "Totalt 2024-05-10 Drinks Kl: 14",
          Cell.blank, Cell.blank, Cell.blank, Cell.str "abc"]])]
      = Except.ok []
    ∧ main_run [("2024-05",
        [[Cell.str "Totalt 2024-05-10 Drinks Kl: 14",
          Cell.blank, Cell.blank, Cell.blank, Cell.str "abc"]])]
      = (0, some headerLine) :=
  ⟨rfl, rfl, rfl, rfl⟩

/-- C8 (amended): for every row of a processed sheet that passes the gate
and the full pattern, whose category classifies to a recognized variable
id, and whose column-4 cell is a non-empty string that cannot be coerced
to a number, the whole run fails: the pipeline returns an error, the CLI
exits with status 1 and no output is written. -/
theorem C8_bad_quantity_aborts :
    ∀ (wb : Workbook) (name : String) (rows : List Row) (row : Row)
      (d c hh s : String),
      (name, rows) ∈ wb → sheet_skipped name = false → row ∈ rows →
      extract_row row = some (d, c, hh, Cell.str s) →
      get_variable_id c ≠ "" → floatParse s = none →
      (∃ e, process_excel_file wb = Except.error e) ∧ main_run wb = (1, none) := by
  intro wb name rows row d c hh s hmem hsk hrow hext hv hf
  have hrowerr : ∃ e, processRow row = Except.error e := by
    rw [processRow_eq hext, if_neg hv]
    cases htz : get_swedish_timezone_offset d with
    | error e => exact ⟨e, rfl⟩
    | ok tz =>
      have hpf : pyFloat (Cell.str s)
          = Except.error ("could not convert string to float: " ++ s) := by
        simp only [pyFloat, hf]
      exact ⟨_, by rw [hpf]⟩
  obtain ⟨e0, he0⟩ := hrowerr
  exact process_excel_file_error (processSheets_error hmem hsk (extractRows_error hrow he0))

/-- Witness for C8 (amended) at a concrete workbook: a recognized `Food`
row with quantity `abc` aborts the run. -/
theorem C8_bad_quantity_aborts_witness :
    (∃ e, process_excel_file [("2024-05",
        [[Cell.str "Totalt 2024-05-10 Food Kl: 14",
          Cell.blank, Cell.blank, Cell.blank, Cell.str "abc"]])]
      = Except.error e)
    ∧ main_run [("2024-05",
        [[Cell.str "Totalt 2024-05-10 Food Kl: 14",
          Cell.blank, Cell.blank, Cell.blank, Cell.str "abc"]])]
      = (1, none) :=
  C8_bad_quantity_aborts
    [("2024-05", [[Cell.str "Totalt 2024-05-10 Food Kl: 14",
        Cell.blank, Cell.blank, Cell.blank, Cell.str "abc"]])]
    "2024-05"
    [[Cell.str "Totalt 2024-05-10 Food Kl: 14",
        Cell.blank, Cell.blank, Cell.blank, Cell.str "abc"]]
    [Cell.str "Totalt 2024-05-10 Food Kl: 14",
        Cell.blank, Cell.blank, Cell.blank, Cell.str "abc"]
    "2024-05-10" "Food" "14" "abc"
    (List.mem_singleton.mpr rfl) rfl (List.mem_singleton.mpr rfl) rfl (by decide) rfl

/-- C9: the formatter emits the fixed header followed by one line per
record; splitting any line on tabs yields exactly the eight fields in
order, with `configId` empty, unit key `produktion` and section key
`köket` on every pipeline-produced record; an empty record list produces
exactly the header. -/
theorem C9_formatter :
    format_output [] = headerLine
    ∧ (∀ wb recs, process_excel_file wb = Except.ok recs →
        ∀ r ∈ recs, r.configId = "" ∧ r.unitKey = "produktion" ∧ r.sectionKey = "köket")
    ∧ (∀ rs : List Rec, (∀ r ∈ rs, cleanRec r) →
        splitOnChar '\n' (format_output rs).data
          = headerLine.data :: rs.map (fun r => (recLine r).data))
    ∧ (∀ r : Rec, cleanRec r →
        splitOnChar '\t' (recLine r).data
          = [r.date.data, r.time.data, r.tz.data, (pyFloatStr r.value).data, r.varId.data,
              r.configId.data, r.unitKey.data, r.sectionKey.data]) := by
  refine ⟨rfl, ?_, format_output_lines, recLine_fields⟩
  intro wb recs h r hr
  obtain ⟨ts, hs, kv, hkv, he⟩ := process_ok_mem h hr
  rw [he]
  exact ⟨rfl, rfl, rfl⟩

/-- Witness for C9 at a concrete record. -/
theorem C9_formatter_witness :
    cleanRec ⟨"2024-05-10", "14:00:00", "+02:00", 10, "kallmat", "", "produktion", "köket"⟩
    ∧ splitOnChar '\t'
        (recLine ⟨"2024-05-10", "14:00:00", "+02:00", 10, "kallmat", "", "produktion", "köket"⟩).data
      = ["2024-05-10".data, "14:00:00".data, "+02:00".data,
          (pyFloatStr 10).data, "kallmat".data, "".data, "produktion".data, "köket".data] :=
  ⟨by decide,
    C9_formatter.2.2.2 ⟨"2024-05-10", "14:00:00", "+02:00", 10, "kallmat", "", "produktion", "köket"⟩
      (by decide)⟩

end Varustatistik
